import Mathlib

/-
Verification of the thread-pool library in src/lib.rs.

The library is a fixed-size thread pool built on std::sync::mpsc plus
Arc<Mutex<Receiver<Job>>>:

  * ThreadPool::new(size) asserts size > 0, creates one mpsc channel,
    wraps the receiver in Arc<Mutex<..>>, and spawns size Workers with
    ids 0..size-1, each holding a clone of the Arc.
  * ThreadPool::execute boxes the closure and sends it through the
    sender: the first unwrap panics if the sender Option is None (after
    Drop), and send(job).unwrap() panics if the receiver was dropped,
    which happens once every worker thread has exited.
  * Drop for ThreadPool drops the sender (closing the channel), then
    joins each worker thread in construction order.
  * Each worker loops: receiver.lock().unwrap().recv().  The MutexGuard
    is a temporary of the let statement, so the lock is released before
    the received job is executed; Ok(job) runs the job, Err breaks.

We model the concurrent system as a small-step transition relation on an
explicit pool state.  Tasks are identified by their submission index.
Ghost fields (submitted, dequeued, executed) record the event history so
that delivery order and exactly-once execution are statable.  Mutex
poisoning is modelled by the poisoned flag: a thread that panics while
holding the lock would poison it, and a poisoned lock makes the workers
lock().unwrap() panic.
-/

set_option autoImplicit false

namespace HelloWebserver

/-- Control state of one worker thread, following the loop body of
Worker::new: idle between iterations, holding the receiver lock inside
recv, executing a received job, stopped after break, or dead from a
panicking job (panicked carries the job it was running, if any). -/
inductive Phase where
  | idle
  | locked
  | exec (task : Nat)
  | panicked (task : Option Nat)
  | stopped
  deriving DecidableEq

/-- One Worker record as built by Worker::new: its immutable id and the
Arc handle it holds to the shared receiver (handle 0 is the single
receiver created in ThreadPool::new; every clone points to it). -/
structure WorkerH where
  id : Nat
  receiver : Nat
  deriving DecidableEq

/-- Global state of the pool, its channel, and its worker threads.
queue is the mpsc buffer (task ids, FIFO), senderAlive records whether
the Sender still exists (ThreadPool.sender is Some), lockHolder is the
worker currently holding the receiver Mutex, joined records which
worker threads Drop has already joined.  submitted, dequeued and
executed are ghost event logs: executed pairs the worker id with the
task it completed. -/
structure PoolState where
  size : Nat
  workersL : List WorkerH
  phase : Nat → Phase
  lockHolder : Option Nat
  poisoned : Bool
  queue : List Nat
  senderAlive : Bool
  joined : Nat → Bool
  submitted : List Nat
  dequeued : List Nat
  executed : List (Nat × Nat)

/-- State right after ThreadPool::new(n) returns: n workers with ids
0..n-1 all idle and sharing receiver 0, empty channel, live sender,
nothing joined, empty history. -/
def initState (n : Nat) : PoolState where
  size := n
  workersL := (List.range n).map (fun i => ⟨i, 0⟩)
  phase := fun _ => Phase.idle
  lockHolder := none
  poisoned := false
  queue := []
  senderAlive := true
  joined := fun _ => false
  submitted := []
  dequeued := []
  executed := []

/-- ThreadPool::new: assert!(size > 0) runs before the spawning loop, so
a zero size panics with zero workers spawned; the error payload is the
number of workers spawned before the panic. -/
def ThreadPool.new (size : Nat) : Except Nat PoolState :=
  if 0 < size then Except.ok (initState size) else Except.error 0

/-- Whether a worker thread is still running.  A worker whose loop broke
(stopped) or whose thread unwound from a panicking job has exited, and
its closure -- which owns that worker's Arc clone of the receiver -- has
been dropped. -/
def Phase.threadLive : Phase → Bool
  | Phase.stopped => false
  | Phase.panicked _ => false
  | _ => true

/-- The shared mpsc receiver still exists.  ThreadPool::new drops its own
local Arc binding when it returns, so the only clones are the ones moved
into the worker threads: the receiver is deallocated exactly when every
worker thread has exited (normally or by panic). -/
def PoolState.receiverAlive (s : PoolState) : Bool :=
  (List.range s.size).any (fun w => (s.phase w).threadLive)

/-- ThreadPool::execute runs self.sender.as_ref().unwrap().send(job).unwrap():
the first unwrap panics when the sender has been taken by Drop; send
returns Err -- and its unwrap panics -- when the receiver has been
deallocated, which happens once every worker thread has died (e.g. all
from panicking jobs); otherwise send pushes the boxed job onto the back
of the channel buffer and returns without blocking.  The new task gets
the next submission index as its id. -/
def ThreadPool.execute (s : PoolState) : Except Unit PoolState :=
  if s.senderAlive then
    if s.receiverAlive then
      Except.ok { s with
        queue := s.queue ++ [s.submitted.length],
        submitted := s.submitted ++ [s.submitted.length] }
    else
      Except.error ()
  else
    Except.error ()

/-- Interleaved small-step semantics of the pool: submissions from the
owning thread, the single sender drop at the start of ThreadPool drop,
each stage of the worker loop, and the joins performed by drop. -/
inductive Step : PoolState → PoolState → Prop where
  | submit (s : PoolState) (h : s.senderAlive = true) :
      Step s { s with
        queue := s.queue ++ [s.submitted.length],
        submitted := s.submitted ++ [s.submitted.length] }
  | dropSender (s : PoolState) (h : s.senderAlive = true) :
      Step s { s with senderAlive := false }
  | acquire (s : PoolState) (w : Nat) (hw : w < s.size)
      (hp : s.phase w = Phase.idle) (hl : s.lockHolder = none)
      (hq : s.poisoned = false) :
      Step s { s with
        lockHolder := some w,
        phase := Function.update s.phase w Phase.locked }
  | lockFail (s : PoolState) (w : Nat) (hw : w < s.size)
      (hp : s.phase w = Phase.idle) (hl : s.lockHolder = none)
      (hq : s.poisoned = true) :
      Step s { s with
        phase := Function.update s.phase w (Phase.panicked none) }
  | recvOk (s : PoolState) (w t : Nat) (rest : List Nat) (hw : w < s.size)
      (hp : s.phase w = Phase.locked) (hl : s.lockHolder = some w)
      (hq : s.queue = t :: rest) :
      Step s { s with
        queue := rest,
        lockHolder := none,
        phase := Function.update s.phase w (Phase.exec t),
        dequeued := s.dequeued ++ [t] }
  | recvClosed (s : PoolState) (w : Nat) (hw : w < s.size)
      (hp : s.phase w = Phase.locked) (hl : s.lockHolder = some w)
      (hq : s.queue = []) (hs : s.senderAlive = false) :
      Step s { s with
        lockHolder := none,
        phase := Function.update s.phase w Phase.stopped }
  | finish (s : PoolState) (w t : Nat) (hw : w < s.size)
      (hp : s.phase w = Phase.exec t) :
      Step s { s with
        phase := Function.update s.phase w Phase.idle,
        executed := s.executed ++ [(w, t)] }
  | panicTask (s : PoolState) (w t : Nat) (hw : w < s.size)
      (hp : s.phase w = Phase.exec t) :
      Step s { s with
        phase := Function.update s.phase w (Phase.panicked (some t)),
        poisoned := s.poisoned || decide (s.lockHolder = some w) }
  | joinWorker (s : PoolState) (w : Nat) (hw : w < s.size)
      (hp : s.phase w = Phase.stopped) (hj : s.joined w = false)
      (ho : ∀ wp, wp < w → s.joined wp = true) :
      Step s { s with joined := Function.update s.joined w true }

/-- States reachable from a freshly constructed pool of size n. -/
inductive Reach (n : Nat) : PoolState → Prop where
  | init : Reach n (initState n)
  | step {s s' : PoolState} : Reach n s → Step s s' → Reach n s'

/-- The task a worker in this phase has dequeued but not yet completed
(an executing job, or the job a panicked thread died inside). -/
def Phase.execTask : Phase → Option Nat
  | Phase.exec t => some t
  | Phase.panicked t => t
  | _ => none

/-- Multiset of tasks currently dequeued but not completed, over the
workers of a pool with n workers and phase assignment f. -/
def inFlightF (n : Nat) (f : Nat → Phase) : Multiset Nat :=
  (((List.range n).filterMap (fun w => (f w).execTask) : List Nat) : Multiset Nat)

/-- Tasks of this pool state that are dequeued but not completed. -/
def inFlight (s : PoolState) : Multiset Nat :=
  inFlightF s.size s.phase

/-- ThreadPool drop has completed: the sender was dropped and every
worker thread has been joined. -/
def DropDone (s : PoolState) : Prop :=
  s.senderAlive = false ∧ ∀ w, w < s.size → s.joined w = true

lemma filterMap_singleton (g : Nat → Option Nat) (a : Nat) :
    List.filterMap g [a] = (g a).toList := by
  cases h : g a <;> simp [List.filterMap_cons, h]

lemma filterMap_range_update (f : Nat → Option Nat) (w : Nat) (v : Option Nat) :
    ∀ n, w < n →
      (((List.range n).filterMap (Function.update f w v) : List Nat) : Multiset Nat)
          + ((f w).toList : Multiset Nat)
        = (((List.range n).filterMap f : List Nat) : Multiset Nat)
          + ((v.toList : List Nat) : Multiset Nat) := by
  intro n
  induction n with
  | zero => intro h; exact absurd h (Nat.not_lt_zero w)
  | succ m ih =>
    intro hw
    rw [List.range_succ, List.filterMap_append, List.filterMap_append,
      filterMap_singleton, filterMap_singleton]
    rcases Nat.lt_succ_iff_lt_or_eq.mp hw with h | h
    · have hne : Function.update f w v m = f m :=
        Function.update_noteq (by omega) _ _
      rw [hne]
      have := ih h
      rw [← Multiset.coe_add, ← Multiset.coe_add]
      rw [add_right_comm, this, add_right_comm]
    · subst h
      have hcong : (List.range w).filterMap (Function.update f w v)
          = (List.range w).filterMap f := by
        apply List.filterMap_congr
        intro x hx
        exact Function.update_noteq (by simp at hx; omega) _ _
      rw [hcong, Function.update_same]
      rw [← Multiset.coe_add, ← Multiset.coe_add]
      rw [add_right_comm]

lemma execTask_update (f : Nat → Phase) (w : Nat) (p : Phase) :
    (fun x => ((Function.update f w p x).execTask : Option Nat))
      = Function.update (fun x => (f x).execTask) w p.execTask := by
  funext x
  by_cases h : x = w
  · subst h; simp
  · simp [Function.update_noteq h]

lemma inFlightF_update (f : Nat → Phase) (w : Nat) (p : Phase) (n : Nat)
    (hw : w < n) :
    inFlightF n (Function.update f w p) + (((f w).execTask.toList : List Nat) : Multiset Nat)
      = inFlightF n f + ((p.execTask.toList : List Nat) : Multiset Nat) := by
  unfold inFlightF
  rw [show (fun x => ((Function.update f w p x).execTask : Option Nat))
      = Function.update (fun x => (f x).execTask) w p.execTask from execTask_update f w p]
  exact filterMap_range_update (fun x => (f x).execTask) w p.execTask n hw

/-- Inductive invariant of the transition system. -/
structure Inv (s : PoolState) : Prop where
  sub_range : s.submitted = List.range s.submitted.length
  fifo : s.submitted = s.dequeued ++ s.queue
  acct : ((s.dequeued : List Nat) : Multiset Nat)
    = ((s.executed.map Prod.snd : List Nat) : Multiset Nat) + inFlight s
  lockSt : ∀ w, s.lockHolder = some w → s.phase w = Phase.locked
  clean : s.poisoned = false
  hi_idle : ∀ w, s.size ≤ w → s.phase w = Phase.idle
  joined_stop : ∀ w, s.joined w = true → s.phase w = Phase.stopped
  stop_closed : ∀ w, s.phase w = Phase.stopped →
    s.senderAlive = false ∧ s.queue = []

lemma inv_init (n : Nat) : Inv (initState n) := by
  have hfm : List.filterMap (fun _ => (none : Option Nat)) (List.range n) = [] :=
    List.filterMap_eq_nil_iff.mpr (fun a _ => rfl)
  constructor <;>
    simp [initState, inFlight, inFlightF, Phase.execTask, hfm]

lemma snoc_length_range {l : List Nat} (h : l = List.range l.length) :
    l ++ [l.length] = List.range (l.length + 1) := by
  rw [List.range_succ]
  exact congrArg (fun x => x ++ [l.length]) h

lemma inv_step {s s' : PoolState} (hinv : Inv s) (hst : Step s s') : Inv s' := by
  obtain ⟨hsub, hfifo, hacct, hlock, hclean, hhi, hjs, hsc⟩ := hinv
  cases hst with
  | submit h =>
    refine ⟨?_, ?_, ?_, hlock, hclean, hhi, hjs, ?_⟩
    · simp only [List.length_append, List.length_singleton]
      exact snoc_length_range hsub
    · rw [hfifo, List.append_assoc]
    · simpa [inFlight] using hacct
    · intro w hw
      dsimp only at hw ⊢
      exact absurd ((hsc w hw).1) (by simp [h])
  | dropSender h =>
    refine ⟨hsub, hfifo, ?_, hlock, hclean, hhi, hjs, ?_⟩
    · simpa [inFlight] using hacct
    · intro w hw
      dsimp only at hw ⊢
      exact ⟨rfl, (hsc w hw).2⟩
  | acquire w hw hp hl hq =>
    have h2 := inFlightF_update s.phase w Phase.locked s.size hw
    rw [hp] at h2
    simp [Phase.execTask] at h2
    refine ⟨hsub, hfifo, ?_, ?_, hclean, ?_, ?_, ?_⟩
    · simpa [inFlight, h2] using hacct
    · intro wp hwp
      dsimp only at hwp ⊢
      have he : wp = w := by
        have := Option.some.inj hwp.symm
        omega
      subst he
      simp [Function.update_same]
    · intro wp hge
      dsimp only at hge ⊢
      rw [Function.update_noteq (by omega)]
      exact hhi wp hge
    · intro wp hj
      dsimp only at hj ⊢
      have hstp := hjs wp hj
      by_cases he : wp = w
      · subst he; rw [hp] at hstp; cases hstp
      · rw [Function.update_noteq he]; exact hstp
    · intro wp hstp
      dsimp only at hstp ⊢
      by_cases he : wp = w
      · subst he; rw [Function.update_same] at hstp; cases hstp
      · rw [Function.update_noteq he] at hstp
        exact hsc wp hstp
  | lockFail w hw hp hl hq =>
    rw [hclean] at hq
    cases hq
  | recvOk w t rest hw hp hl hq =>
    have h2 := inFlightF_update s.phase w (Phase.exec t) s.size hw
    rw [hp] at h2
    simp [Phase.execTask] at h2
    refine ⟨hsub, ?_, ?_, ?_, hclean, ?_, ?_, ?_⟩
    · rw [hfifo, hq]
      simp
    · simp only [inFlight]
      rw [← Multiset.coe_add, hacct, h2]
      simp [inFlight, add_assoc]
    · intro wp hwp
      dsimp only at hwp ⊢
      cases hwp
    · intro wp hge
      dsimp only at hge ⊢
      rw [Function.update_noteq (by omega)]
      exact hhi wp hge
    · intro wp hj
      dsimp only at hj ⊢
      have hstp := hjs wp hj
      by_cases he : wp = w
      · subst he; rw [hp] at hstp; cases hstp
      · rw [Function.update_noteq he]; exact hstp
    · intro wp hstp
      dsimp only at hstp ⊢
      by_cases he : wp = w
      · subst he; rw [Function.update_same] at hstp; cases hstp
      · rw [Function.update_noteq he] at hstp
        have h3 := hsc wp hstp
        rw [hq] at h3
        exact absurd h3.2 (by simp)
  | recvClosed w hw hp hl hq hs =>
    have h2 := inFlightF_update s.phase w Phase.stopped s.size hw
    rw [hp] at h2
    simp [Phase.execTask] at h2
    refine ⟨hsub, hfifo, ?_, ?_, hclean, ?_, ?_, ?_⟩
    · simpa [inFlight, h2] using hacct
    · intro wp hwp
      dsimp only at hwp ⊢
      cases hwp
    · intro wp hge
      dsimp only at hge ⊢
      rw [Function.update_noteq (by omega)]
      exact hhi wp hge
    · intro wp hj
      dsimp only at hj ⊢
      by_cases he : wp = w
      · subst he; rw [Function.update_same]
      · rw [Function.update_noteq he]; exact hjs wp hj
    · intro wp hstp
      dsimp only at hstp ⊢
      exact ⟨hs, hq⟩
  | finish w t hw hp =>
    have h2 := inFlightF_update s.phase w Phase.idle s.size hw
    rw [hp] at h2
    simp [Phase.execTask] at h2
    refine ⟨hsub, hfifo, ?_, ?_, hclean, ?_, ?_, ?_⟩
    · simp only [inFlight, List.map_append]
      rw [← Multiset.coe_add, hacct]
      simp only [List.map_cons, List.map_nil, inFlight]
      rw [← h2, Multiset.coe_singleton, ← add_assoc, add_right_comm]
    · intro wp hwp
      dsimp only at hwp ⊢
      have hl2 := hlock wp hwp
      by_cases he : wp = w
      · subst he; rw [hp] at hl2; cases hl2
      · rw [Function.update_noteq he]; exact hl2
    · intro wp hge
      dsimp only at hge ⊢
      rw [Function.update_noteq (by omega)]
      exact hhi wp hge
    · intro wp hj
      dsimp only at hj ⊢
      have hstp := hjs wp hj
      by_cases he : wp = w
      · subst he; rw [hp] at hstp; cases hstp
      · rw [Function.update_noteq he]; exact hstp
    · intro wp hstp
      dsimp only at hstp ⊢
      by_cases he : wp = w
      · subst he; rw [Function.update_same] at hstp; cases hstp
      · rw [Function.update_noteq he] at hstp
        exact hsc wp hstp
  | panicTask w t hw hp =>
    have h2 := inFlightF_update s.phase w (Phase.panicked (some t)) s.size hw
    rw [hp] at h2
    simp [Phase.execTask] at h2
    have hne : s.lockHolder ≠ some w := by
      intro he
      have := hlock w he
      rw [hp] at this
      cases this
    refine ⟨hsub, hfifo, ?_, ?_, ?_, ?_, ?_, ?_⟩
    · simpa [inFlight, h2] using hacct
    · intro wp hwp
      dsimp only at hwp ⊢
      have hl2 := hlock wp hwp
      by_cases he : wp = w
      · subst he; rw [hp] at hl2; cases hl2
      · rw [Function.update_noteq he]; exact hl2
    · simp [hclean, hne]
    · intro wp hge
      dsimp only at hge ⊢
      rw [Function.update_noteq (by omega)]
      exact hhi wp hge
    · intro wp hj
      dsimp only at hj ⊢
      have hstp := hjs wp hj
      by_cases he : wp = w
      · subst he; rw [hp] at hstp; cases hstp
      · rw [Function.update_noteq he]; exact hstp
    · intro wp hstp
      dsimp only at hstp ⊢
      by_cases he : wp = w
      · subst he; rw [Function.update_same] at hstp; cases hstp
      · rw [Function.update_noteq he] at hstp
        exact hsc wp hstp
  | joinWorker w hw hp hj ho =>
    refine ⟨hsub, hfifo, ?_, hlock, hclean, hhi, ?_, hsc⟩
    · simpa [inFlight] using hacct
    · intro wp hjp
      dsimp only at hjp ⊢
      by_cases he : wp = w
      · subst he; exact hp
      · rw [Function.update_noteq he] at hjp
        exact hjs wp hjp

lemma reach_inv {n : Nat} {s : PoolState} (hr : Reach n s) : Inv s := by
  induction hr with
  | init => exact inv_init n
  | step _ hst ih => exact inv_step ih hst

lemma reach_size {n : Nat} {s : PoolState} (hr : Reach n s) : s.size = n := by
  induction hr with
  | init => rfl
  | step _ hst ih =>
    cases hst <;> simpa using ih

lemma reach_workersL {n : Nat} {s : PoolState} (hr : Reach n s) :
    s.workersL = (List.range n).map (fun i => ⟨i, 0⟩) := by
  induction hr with
  | init => rfl
  | step _ hst ih =>
    cases hst <;> simpa using ih

/-- C5: ThreadPool::new(size) panics exactly when size = 0, and the
assert fires before the spawn loop, so the panic happens with zero
workers spawned (the error payload counts spawned workers); every
positive size constructs the pool successfully. -/
theorem new_panics_iff_size_zero (n : Nat) :
    (ThreadPool.new n = Except.error 0 ↔ n = 0) ∧
    (0 < n → ThreadPool.new n = Except.ok (initState n)) := by
  constructor
  · constructor
    · intro h
      by_contra hne
      have hp : 0 < n := Nat.pos_of_ne_zero hne
      simp [ThreadPool.new, hp] at h
    · intro h
      subst h
      rfl
  · intro h
    simp [ThreadPool.new, h]

theorem new_panics_iff_size_zero_witness :
    ThreadPool.new 0 = Except.error 0 ∧ ThreadPool.new 3 = Except.ok (initState 3) :=
  ⟨(new_panics_iff_size_zero 0).1.mpr rfl, (new_panics_iff_size_zero 3).2 (by decide)⟩

/-- C6: for every size N with 0 < N, ThreadPool::new(N) builds exactly N
workers whose immutable ids are exactly 0..N-1 in construction order,
each holding a clone of the single shared receiver (handle 0). -/
theorem new_spawns_exactly_n_workers (n : Nat) (s : PoolState)
    (h : ThreadPool.new n = Except.ok s) :
    0 < n ∧ s.workersL.length = n ∧
    s.workersL.map WorkerH.id = List.range n ∧
    ∀ wk ∈ s.workersL, wk.receiver = 0 := by
  have hn : 0 < n := by
    by_contra hne
    have : n = 0 := by omega
    subst this
    simp [ThreadPool.new] at h
  have hs : s = initState n := by
    simp [ThreadPool.new, hn] at h
    exact h.symm
  subst hs
  refine ⟨hn, ?_, ?_, ?_⟩
  · simp [initState]
  · simp [initState]
    exact List.map_id _
  · intro wk hwk
    simp [initState] at hwk
    obtain ⟨i, _, hi⟩ := hwk
    rw [← hi]

theorem new_spawns_exactly_n_workers_witness :
    0 < 2 ∧ (initState 2).workersL.length = 2 ∧
    (initState 2).workersL.map WorkerH.id = List.range 2 ∧
    ∀ wk ∈ (initState 2).workersL, wk.receiver = 0 :=
  new_spawns_exactly_n_workers 2 (initState 2) rfl

/- Trace t4: a pool of size 1 whose single worker dequeues task 0 and
the task panics, so the worker thread dies and the last Arc clone of the
receiver is dropped while the sender is still alive. -/

def t4a : PoolState := initState 1

def t4b : PoolState := { t4a with queue := [0], submitted := [0] }

def t4c : PoolState := { t4b with
  lockHolder := some 0, phase := Function.update t4b.phase 0 Phase.locked }

def t4d : PoolState := { t4c with
  queue := [], lockHolder := none,
  phase := Function.update t4c.phase 0 (Phase.exec 0), dequeued := [0] }

def t4e : PoolState := { t4d with
  phase := Function.update t4d.phase 0 (Phase.panicked (some 0)),
  poisoned := false }

/-- C7 counterexample: execute can fail fatally even before shutdown has
begun: in a size-1 pool whose worker died running a panicking task, the
receiver has been deallocated, so with the sender still alive the
send(job).unwrap() in execute panics instead of enqueuing the task. -/
theorem execute_before_shutdown_can_panic_at_send :
    Reach 1 t4e ∧ t4e.senderAlive = true ∧
    ThreadPool.execute t4e = Except.error () := by
  have h1 : Step t4a t4b := Step.submit t4a rfl
  have h2 : Step t4b t4c := Step.acquire t4b 0 (by decide) rfl rfl rfl
  have h3 : Step t4c t4d := Step.recvOk t4c 0 0 [] (by decide) (by decide) rfl rfl
  have h4 : Step t4d t4e := Step.panicTask t4d 0 0 (by decide) (by decide)
  exact ⟨Reach.step (Reach.step (Reach.step (Reach.step Reach.init h1) h2) h3) h4,
    rfl, rfl⟩

/-- C7 amended: execute called after Drop has taken the sender panics on
the unwrap of the None sender, and execute called while the sender is
alive but every worker thread already dead (the receiver deallocated)
panics on the unwrap of the send result -- in both cases it fails
fatally rather than silently dropping the task; while the sender is
alive and at least one worker thread is live, execute always succeeds
without blocking and appends the task at the back of the channel buffer,
preserving submission order. -/
theorem execute_fails_fatally_or_appends_in_order (s : PoolState) :
    (s.senderAlive = false → ThreadPool.execute s = Except.error ()) ∧
    (s.senderAlive = true → s.receiverAlive = false →
      ThreadPool.execute s = Except.error ()) ∧
    (s.senderAlive = true → s.receiverAlive = true →
      ThreadPool.execute s = Except.ok { s with
        queue := s.queue ++ [s.submitted.length],
        submitted := s.submitted ++ [s.submitted.length] } ∧
      Step s { s with
        queue := s.queue ++ [s.submitted.length],
        submitted := s.submitted ++ [s.submitted.length] }) := by
  refine ⟨?_, ?_, ?_⟩
  · intro h
    simp [ThreadPool.execute, h]
  · intro h hrcv
    simp [ThreadPool.execute, h, hrcv]
  · intro h hrcv
    exact ⟨by simp [ThreadPool.execute, h, hrcv], Step.submit s h⟩

theorem execute_fails_fatally_or_appends_in_order_witness :
    ThreadPool.execute { initState 1 with senderAlive := false } = Except.error () ∧
    ThreadPool.execute t4e = Except.error () ∧
    ThreadPool.execute (initState 1) = Except.ok { initState 1 with
      queue := [0], submitted := [0] } :=
  ⟨(execute_fails_fatally_or_appends_in_order
      { initState 1 with senderAlive := false }).1 rfl,
   (execute_fails_fatally_or_appends_in_order t4e).2.1 rfl (by decide),
   ((execute_fails_fatally_or_appends_in_order (initState 1)).2.2 rfl rfl).1⟩

/- Concrete demonstration traces used to instantiate the theorems below.
Trace t1: a pool of size 1, one task submitted, then the pool dropped;
the worker drains the buffered task, stops on the closed channel, and is
joined. -/

def t1a : PoolState := initState 1

def t1b : PoolState := { t1a with queue := [0], submitted := [0] }

def t1c : PoolState := { t1b with senderAlive := false }

def t1d : PoolState := { t1c with
  lockHolder := some 0, phase := Function.update t1c.phase 0 Phase.locked }

def t1e : PoolState := { t1d with
  queue := [], lockHolder := none,
  phase := Function.update t1d.phase 0 (Phase.exec 0), dequeued := [0] }

def t1f : PoolState := { t1e with
  phase := Function.update t1e.phase 0 Phase.idle, executed := [(0, 0)] }

def t1g : PoolState := { t1f with
  lockHolder := some 0, phase := Function.update t1f.phase 0 Phase.locked }

def t1h : PoolState := { t1g with
  lockHolder := none, phase := Function.update t1g.phase 0 Phase.stopped }

def t1i : PoolState := { t1h with joined := Function.update t1h.joined 0 true }

/- Trace t2: a pool of size 1 with two tasks submitted; the worker has
dequeued the first and is about to run it. -/

def t2a : PoolState := initState 1

def t2b : PoolState := { t2a with queue := [0], submitted := [0] }

def t2c : PoolState := { t2b with queue := [0, 1], submitted := [0, 1] }

def t2d : PoolState := { t2c with
  lockHolder := some 0, phase := Function.update t2c.phase 0 Phase.locked }

def t2e : PoolState := { t2d with
  queue := [1], lockHolder := none,
  phase := Function.update t2d.phase 0 (Phase.exec 0), dequeued := [0] }

/-- C2: in every reachable state of the system, a worker that is
executing a dequeued task does not hold the receiver mutex: the
MutexGuard is a temporary of the let statement in the worker loop and is
dropped before job() is invoked. -/
theorem lock_released_before_task_execution (n : Nat) (s : PoolState)
    (hr : Reach n s) :
    ∀ w t, s.phase w = Phase.exec t → s.lockHolder ≠ some w := by
  intro w t hp he
  have h := (reach_inv hr).lockSt w he
  rw [hp] at h
  cases h

theorem lock_released_before_task_execution_witness :
    t2e.lockHolder ≠ some 0 := by
  have h1 : Step t2a t2b := Step.submit t2a rfl
  have h2 : Step t2b t2c := Step.submit t2b rfl
  have h3 : Step t2c t2d := Step.acquire t2c 0 (by decide) rfl rfl rfl
  have h4 : Step t2d t2e := Step.recvOk t2d 0 0 [1] (by decide) (by decide) rfl rfl
  have hr : Reach 1 t2e :=
    Reach.step (Reach.step (Reach.step (Reach.step Reach.init h1) h2) h3) h4
  exact lock_released_before_task_execution 1 t2e hr 0 0 (by decide)

/-- C8: tasks are delivered FIFO relative to submission order: in every
reachable state the submission log is exactly the dequeue log followed
by the still-queued tasks, and the dequeue log is strictly increasing in
submission index, so of any two submitted tasks the earlier-submitted
one is dequeued first.  (Completion order is left unconstrained by the
step relation.) -/
theorem tasks_delivered_in_fifo_order (n : Nat) (s : PoolState)
    (hr : Reach n s) :
    s.submitted = s.dequeued ++ s.queue ∧ s.dequeued.Pairwise (· < ·) := by
  obtain ⟨hsub, hfifo, _, _, _, _, _, _⟩ := reach_inv hr
  refine ⟨hfifo, ?_⟩
  have hp : s.submitted.Pairwise (· < ·) := by
    rw [hsub]
    exact List.pairwise_lt_range _
  rw [hfifo] at hp
  exact List.Pairwise.sublist (List.sublist_append_left _ _) hp

theorem tasks_delivered_in_fifo_order_witness :
    t2e.submitted = t2e.dequeued ++ t2e.queue ∧ t2e.dequeued.Pairwise (· < ·) := by
  have h1 : Step t2a t2b := Step.submit t2a rfl
  have h2 : Step t2b t2c := Step.submit t2b rfl
  have h3 : Step t2c t2d := Step.acquire t2c 0 (by decide) rfl rfl rfl
  have h4 : Step t2d t2e := Step.recvOk t2d 0 0 [1] (by decide) (by decide) rfl rfl
  have hr : Reach 1 t2e :=
    Reach.step (Reach.step (Reach.step (Reach.step Reach.init h1) h2) h3) h4
  exact tasks_delivered_in_fifo_order 1 t2e hr

/-- C9: a worker leaves its loop exactly on the closed signal: the only
step that newly moves a worker to stopped is a receive on the empty,
closed channel (so the worker was blocked in recv holding the lock, the
queue was empty and the sender already dropped), and stopped is
terminal: no step ever moves a worker out of stopped. -/
theorem worker_stops_exactly_on_closed_signal :
    (∀ (s sp : PoolState) (w : Nat), Step s sp → w < s.size →
        s.phase w ≠ Phase.stopped → sp.phase w = Phase.stopped →
        s.phase w = Phase.locked ∧ s.queue = [] ∧ s.senderAlive = false) ∧
    (∀ (s sp : PoolState) (w : Nat), Step s sp →
        s.phase w = Phase.stopped → sp.phase w = Phase.stopped) := by
  constructor
  · intro s sp w hst hw hns hstp
    cases hst with
    | submit h => exact absurd hstp hns
    | dropSender h => exact absurd hstp hns
    | acquire w0 hw0 hp hl hq =>
      dsimp only at hstp
      by_cases he : w = w0
      · subst he
        rw [Function.update_same] at hstp
        cases hstp
      · rw [Function.update_noteq he] at hstp
        exact absurd hstp hns
    | lockFail w0 hw0 hp hl hq =>
      dsimp only at hstp
      by_cases he : w = w0
      · subst he
        rw [Function.update_same] at hstp
        cases hstp
      · rw [Function.update_noteq he] at hstp
        exact absurd hstp hns
    | recvOk w0 t rest hw0 hp hl hq =>
      dsimp only at hstp
      by_cases he : w = w0
      · subst he
        rw [Function.update_same] at hstp
        cases hstp
      · rw [Function.update_noteq he] at hstp
        exact absurd hstp hns
    | recvClosed w0 hw0 hp hl hq hs =>
      dsimp only at hstp
      by_cases he : w = w0
      · subst he
        exact ⟨hp, hq, hs⟩
      · rw [Function.update_noteq he] at hstp
        exact absurd hstp hns
    | finish w0 t hw0 hp =>
      dsimp only at hstp
      by_cases he : w = w0
      · subst he
        rw [Function.update_same] at hstp
        cases hstp
      · rw [Function.update_noteq he] at hstp
        exact absurd hstp hns
    | panicTask w0 t hw0 hp =>
      dsimp only at hstp
      by_cases he : w = w0
      · subst he
        rw [Function.update_same] at hstp
        cases hstp
      · rw [Function.update_noteq he] at hstp
        exact absurd hstp hns
    | joinWorker w0 hw0 hp hj ho => exact absurd hstp hns
  · intro s sp w hst hstp
    cases hst with
    | submit h => exact hstp
    | dropSender h => exact hstp
    | acquire w0 hw0 hp hl hq =>
      dsimp only
      by_cases he : w = w0
      · subst he
        rw [hstp] at hp
        cases hp
      · rw [Function.update_noteq he]
        exact hstp
    | lockFail w0 hw0 hp hl hq =>
      dsimp only
      by_cases he : w = w0
      · subst he
        rw [hstp] at hp
        cases hp
      · rw [Function.update_noteq he]
        exact hstp
    | recvOk w0 t rest hw0 hp hl hq =>
      dsimp only
      by_cases he : w = w0
      · subst he
        rw [hstp] at hp
        cases hp
      · rw [Function.update_noteq he]
        exact hstp
    | recvClosed w0 hw0 hp hl hq hs =>
      dsimp only
      by_cases he : w = w0
      · subst he
        rw [Function.update_same]
      · rw [Function.update_noteq he]
        exact hstp
    | finish w0 t hw0 hp =>
      dsimp only
      by_cases he : w = w0
      · subst he
        rw [hstp] at hp
        cases hp
      · rw [Function.update_noteq he]
        exact hstp
    | panicTask w0 t hw0 hp =>
      dsimp only
      by_cases he : w = w0
      · subst he
        rw [hstp] at hp
        cases hp
      · rw [Function.update_noteq he]
        exact hstp
    | joinWorker w0 hw0 hp hj ho => exact hstp

theorem worker_stops_exactly_on_closed_signal_witness :
    (t1g.phase 0 = Phase.locked ∧ t1g.queue = [] ∧ t1g.senderAlive = false) ∧
    t1i.phase 0 = Phase.stopped := by
  have h7 : Step t1g t1h := Step.recvClosed t1g 0 (by decide) (by decide) rfl rfl rfl
  have h8 : Step t1h t1i := Step.joinWorker t1h 0 (by decide) (by decide) rfl
    (fun wp hwp => absurd hwp (Nat.not_lt_zero wp))
  exact ⟨worker_stops_exactly_on_closed_signal.1 t1g t1h 0 h7 (by decide)
      (by decide) (by decide),
    worker_stops_exactly_on_closed_signal.2 t1h t1i 0 h8 (by decide)⟩

/-- C1: once teardown has completed (sender dropped and every worker
thread joined) on a pool of positive size, the multiset of completed
task executions is a permutation of the submission log: every submitted
task ran exactly once, and it ran on exactly one worker. -/
theorem submitted_tasks_run_exactly_once (n : Nat) (s : PoolState)
    (hn : 0 < n) (hr : Reach n s) (hd : DropDone s) :
    (s.executed.map Prod.snd).Perm s.submitted ∧
    ∀ t ∈ s.submitted, ∃ w, (w, t) ∈ s.executed ∧
      ∀ wp, (wp, t) ∈ s.executed → wp = w := by
  obtain ⟨hsub, hfifo, hacct, hlock, hclean, hhi, hjs, hsc⟩ := reach_inv hr
  obtain ⟨hdead, hjoin⟩ := hd
  have hsz : s.size = n := reach_size hr
  have hstop : ∀ w, w < s.size → s.phase w = Phase.stopped :=
    fun w hw => hjs w (hjoin w hw)
  have hqe : s.queue = [] := (hsc 0 (hstop 0 (by omega))).2
  have hde : s.submitted = s.dequeued := by
    rw [hfifo, hqe, List.append_nil]
  have hif : inFlight s = 0 := by
    unfold inFlight inFlightF
    have hnil : (List.range s.size).filterMap (fun w => (s.phase w).execTask) = [] := by
      apply List.filterMap_eq_nil_iff.mpr
      intro a ha
      rw [hstop a (List.mem_range.mp ha)]
      rfl
    rw [hnil]
    rfl
  have hco : ((s.dequeued : List Nat) : Multiset Nat)
      = ((s.executed.map Prod.snd : List Nat) : Multiset Nat) := by
    rw [hacct, hif, add_zero]
  have hperm : (s.executed.map Prod.snd).Perm s.submitted := by
    rw [hde]
    exact (Multiset.coe_eq_coe.mp hco).symm
  refine ⟨hperm, ?_⟩
  intro t ht
  have hnd : s.submitted.Nodup := by
    rw [hsub]
    exact List.nodup_range _
  have hndex : (s.executed.map Prod.snd).Nodup := hperm.nodup_iff.mpr hnd
  have htm : t ∈ s.executed.map Prod.snd := hperm.mem_iff.mpr ht
  obtain ⟨p, hpmem, hpt⟩ := List.mem_map.mp htm
  refine ⟨p.1, ?_, ?_⟩
  · have hmk : (p.1, t) = p := by
      rw [← hpt]
    rw [hmk]
    exact hpmem
  · intro wp hwp
    have heq := List.inj_on_of_nodup_map hndex hwp hpmem (by simp [hpt])
    rw [← heq]

theorem submitted_tasks_run_exactly_once_witness :
    (t1i.executed.map Prod.snd).Perm t1i.submitted ∧
    ∀ t ∈ t1i.submitted, ∃ w, (w, t) ∈ t1i.executed ∧
      ∀ wp, (wp, t) ∈ t1i.executed → wp = w := by
  have h1 : Step t1a t1b := Step.submit t1a rfl
  have h2 : Step t1b t1c := Step.dropSender t1b rfl
  have h3 : Step t1c t1d := Step.acquire t1c 0 (by decide) rfl rfl rfl
  have h4 : Step t1d t1e := Step.recvOk t1d 0 0 [] (by decide) (by decide) rfl rfl
  have h5 : Step t1e t1f := Step.finish t1e 0 0 (by decide) (by decide)
  have h6 : Step t1f t1g := Step.acquire t1f 0 (by decide) (by decide) rfl rfl
  have h7 : Step t1g t1h := Step.recvClosed t1g 0 (by decide) (by decide) rfl rfl rfl
  have h8 : Step t1h t1i := Step.joinWorker t1h 0 (by decide) (by decide) rfl
    (fun wp hwp => absurd hwp (Nat.not_lt_zero wp))
  have hr : Reach 1 t1i :=
    Reach.step (Reach.step (Reach.step (Reach.step (Reach.step (Reach.step
      (Reach.step (Reach.step Reach.init h1) h2) h3) h4) h5) h6) h7) h8
  have hd : DropDone t1i := by
    refine ⟨rfl, ?_⟩
    intro w hw
    have hsz : t1i.size = 1 := rfl
    rw [hsz] at hw
    have hw0 : w = 0 := by omega
    subst hw0
    decide
  exact submitted_tasks_run_exactly_once 1 t1i (by decide) hr hd

/-- C3: the close signal is one-shot and irreversible (no step revives a
dropped sender), a worker thread handle is taken at most once (joined is
monotone), a join can only happen once the worker has exited and after
all earlier-constructed workers were joined (the drop loop is in
construction order and join blocks), and when drop has completed every
worker thread has exited. -/
theorem drop_closes_once_then_joins_every_worker :
    (∀ s sp : PoolState, Step s sp → s.senderAlive = false →
        sp.senderAlive = false) ∧
    (∀ (s sp : PoolState) (w : Nat), Step s sp → s.joined w = true →
        sp.joined w = true) ∧
    (∀ (s sp : PoolState) (w : Nat), Step s sp → s.joined w = false →
        sp.joined w = true →
        s.phase w = Phase.stopped ∧ ∀ wp, wp < w → s.joined wp = true) ∧
    (∀ (n : Nat) (s : PoolState), Reach n s → DropDone s →
        ∀ w, w < s.size → s.phase w = Phase.stopped) := by
  refine ⟨?_, ?_, ?_, ?_⟩
  · intro s sp hst h
    cases hst <;> simp_all
  · intro s sp w hst h
    cases hst with
    | joinWorker w0 hw0 hp hj ho =>
      dsimp only
      by_cases he : w = w0
      · subst he
        rw [Function.update_same]
      · rw [Function.update_noteq he]
        exact h
    | _ => exact h
  · intro s sp w hst h0 h1
    cases hst with
    | joinWorker w0 hw0 hp hj ho =>
      dsimp only at h1
      by_cases he : w = w0
      · subst he
        exact ⟨hp, ho⟩
      · rw [Function.update_noteq he] at h1
        rw [h0] at h1
        cases h1
    | _ =>
      rw [h0] at h1
      cases h1
  · intro n s hr hd w hw
    exact (reach_inv hr).joined_stop w (hd.2 w hw)

def c3s : PoolState := { initState 2 with
  senderAlive := false,
  phase := Function.update (initState 2).phase 0 Phase.stopped,
  joined := Function.update (initState 2).joined 0 true }

def c3t : PoolState := { initState 2 with
  senderAlive := false,
  phase := fun _ => Phase.stopped }

def c3sp : PoolState := { c3s with
  lockHolder := some 1, phase := Function.update c3s.phase 1 Phase.locked }

theorem drop_closes_once_then_joins_every_worker_witness :
    c3sp.senderAlive = false ∧
    c3sp.joined 0 = true ∧
    (c3t.phase 0 = Phase.stopped ∧ ∀ wp, wp < 0 → c3t.joined wp = true) ∧
    t1i.phase 0 = Phase.stopped := by
  have hstep : Step c3s c3sp :=
    Step.acquire c3s 1 (by decide) (by decide) rfl rfl
  have hjoin : Step c3t { c3t with joined := Function.update c3t.joined 0 true } :=
    Step.joinWorker c3t 0 (by decide) rfl rfl
      (fun wp hwp => absurd hwp (Nat.not_lt_zero wp))
  have h1 : Step t1a t1b := Step.submit t1a rfl
  have h2 : Step t1b t1c := Step.dropSender t1b rfl
  have h3 : Step t1c t1d := Step.acquire t1c 0 (by decide) rfl rfl rfl
  have h4 : Step t1d t1e := Step.recvOk t1d 0 0 [] (by decide) (by decide) rfl rfl
  have h5 : Step t1e t1f := Step.finish t1e 0 0 (by decide) (by decide)
  have h6 : Step t1f t1g := Step.acquire t1f 0 (by decide) (by decide) rfl rfl
  have h7 : Step t1g t1h := Step.recvClosed t1g 0 (by decide) (by decide) rfl rfl rfl
  have h8 : Step t1h t1i := Step.joinWorker t1h 0 (by decide) (by decide) rfl
    (fun wp hwp => absurd hwp (Nat.not_lt_zero wp))
  have hr : Reach 1 t1i :=
    Reach.step (Reach.step (Reach.step (Reach.step (Reach.step (Reach.step
      (Reach.step (Reach.step Reach.init h1) h2) h3) h4) h5) h6) h7) h8
  have hd : DropDone t1i := by
    refine ⟨rfl, ?_⟩
    intro w hw
    have hsz : t1i.size = 1 := rfl
    rw [hsz] at hw
    have hw0 : w = 0 := by omega
    subst hw0
    decide
  refine ⟨?_, ?_, ?_, ?_⟩
  · exact drop_closes_once_then_joins_every_worker.1 c3s _ hstep rfl
  · exact drop_closes_once_then_joins_every_worker.2.1 c3s _ 0 hstep (by decide)
  · exact drop_closes_once_then_joins_every_worker.2.2.1 c3t _ 0 hjoin rfl
      (by decide)
  · exact drop_closes_once_then_joins_every_worker.2.2.2 1 t1i hr hd 0 (by decide)

/-- C4 counterexample: after the producer has been dropped the channel
can still hold buffered tasks, and a receive then returns a task, not
the closed signal: from a size-1 pool, submit task 0, drop the sender,
let the worker lock the receiver; the next receive dequeues task 0 and
the worker proceeds to execute it. -/
theorem receive_after_drop_can_return_buffered_task :
    Reach 1 t1d ∧ t1d.senderAlive = false ∧ t1d.queue = [0] ∧
    Step t1d t1e ∧ t1e.phase 0 = Phase.exec 0 ∧ t1e.dequeued = [0] := by
  have h1 : Step t1a t1b := Step.submit t1a rfl
  have h2 : Step t1b t1c := Step.dropSender t1b rfl
  have h3 : Step t1c t1d := Step.acquire t1c 0 (by decide) rfl rfl rfl
  have h4 : Step t1d t1e := Step.recvOk t1d 0 0 [] (by decide) (by decide) rfl rfl
  exact ⟨Reach.step (Reach.step (Reach.step Reach.init h1) h2) h3,
    rfl, rfl, h4, by decide, rfl⟩

/-- C4 amended: once the producer side has been dropped the closed state
is terminal and irreversible and no task can be enqueued afterward; a
receive that finds the buffer empty returns the closed signal
immediately (the worker stops); receives that find buffered tasks still
return those tasks first. -/
theorem closed_channel_terminal_and_empty_receive_closes :
    (∀ s sp : PoolState, Step s sp → s.senderAlive = false →
        sp.senderAlive = false ∧ sp.submitted = s.submitted) ∧
    (∀ s sp : PoolState, Step s sp → s.queue = [] → s.senderAlive = false →
        sp.dequeued = s.dequeued) ∧
    (∀ (s : PoolState) (w : Nat), w < s.size → s.phase w = Phase.locked →
        s.lockHolder = some w → s.queue = [] → s.senderAlive = false →
        Step s { s with lockHolder := none,
                        phase := Function.update s.phase w Phase.stopped }) := by
  refine ⟨?_, ?_, fun s w hw hp hl hq hs => Step.recvClosed s w hw hp hl hq hs⟩
  · intro s sp hst h
    cases hst <;> simp_all
  · intro s sp hst hq h
    cases hst <;> simp_all

def c4s : PoolState := { initState 1 with senderAlive := false }

def c4t : PoolState := { c4s with
  lockHolder := some 0, phase := Function.update c4s.phase 0 Phase.locked }

theorem closed_channel_terminal_and_empty_receive_closes_witness :
    (c4t.senderAlive = false ∧ c4t.submitted = c4s.submitted) ∧
    c4t.dequeued = c4s.dequeued ∧
    Step c4t { c4t with lockHolder := none,
                        phase := Function.update c4t.phase 0 Phase.stopped } := by
  have hstep : Step c4s c4t := Step.acquire c4s 0 (by decide) rfl rfl rfl
  exact ⟨closed_channel_terminal_and_empty_receive_closes.1 c4s c4t hstep rfl,
    closed_channel_terminal_and_empty_receive_closes.2.1 c4s c4t hstep rfl rfl,
    closed_channel_terminal_and_empty_receive_closes.2.2 c4t 0 (by decide)
      (by decide) rfl rfl rfl⟩

/-- C10: because a task closure runs only after the receiver MutexGuard
was dropped, a panicking task never panics while holding the receiver
lock, so the mutex is never poisoned in any reachable state, and every
idle worker can still acquire the free lock (its lock().unwrap() cannot
hit the poisoned case), so the remaining workers keep dequeuing and can
shut down normally. -/
theorem task_abort_cannot_poison_receiver_lock (n : Nat) (s : PoolState)
    (hr : Reach n s) :
    s.poisoned = false ∧
    ∀ w, w < s.size → s.phase w = Phase.idle → s.lockHolder = none →
      Step s { s with lockHolder := some w,
                      phase := Function.update s.phase w Phase.locked } := by
  have hinv := reach_inv hr
  exact ⟨hinv.clean, fun w hw hp hl => Step.acquire s w hw hp hl hinv.clean⟩

/- Trace t3: a pool of size 2; worker 0 dequeues task 0 and the task
panics; worker 1 is still idle and the lock is free. -/

def t3a : PoolState := initState 2

def t3b : PoolState := { t3a with queue := [0], submitted := [0] }

def t3c : PoolState := { t3b with
  lockHolder := some 0, phase := Function.update t3b.phase 0 Phase.locked }

def t3d : PoolState := { t3c with
  queue := [], lockHolder := none,
  phase := Function.update t3c.phase 0 (Phase.exec 0), dequeued := [0] }

def t3e : PoolState := { t3d with
  phase := Function.update t3d.phase 0 (Phase.panicked (some 0)),
  poisoned := false }

theorem task_abort_cannot_poison_receiver_lock_witness :
    t3e.poisoned = false ∧
    Step t3e { t3e with lockHolder := some 1,
                        phase := Function.update t3e.phase 1 Phase.locked } := by
  have h1 : Step t3a t3b := Step.submit t3a rfl
  have h2 : Step t3b t3c := Step.acquire t3b 0 (by decide) rfl rfl rfl
  have h3 : Step t3c t3d := Step.recvOk t3c 0 0 [] (by decide) (by decide) rfl rfl
  have h4 : Step t3d t3e := Step.panicTask t3d 0 0 (by decide) (by decide)
  have hr : Reach 2 t3e :=
    Reach.step (Reach.step (Reach.step (Reach.step Reach.init h1) h2) h3) h4
  have h := task_abort_cannot_poison_receiver_lock 2 t3e hr
  exact ⟨h.1, h.2 1 (by decide) (by decide) rfl⟩

end HelloWebserver
